import Mathlib

/-!
Shallow embedding of the Gesture-to-Note Trigger Engine of
src/web_version/script.js (virtual piano), together with proofs about the
claims of its specification.  Coordinates are modelled as exact rationals.
JavaScript Math.sqrt applied to a squared distance is strictly monotone, so
every comparison the source makes between such square roots is modelled on
the squared values, which preserves every ordering decision of the source.
-/

namespace VirtualPiano

/-- A 2-D point in canvas or layout space. -/
abbrev Pt : Type := ℚ × ℚ

/-- Key colour class, the `type` field of a key object ("white" / "black"). -/
inductive KeyType where
  | white
  | black
deriving DecidableEq, Repr

/-- One key of the layout: note identifier, polygon, and type
(script.js data model; note strings are abstracted to numeric identifiers). -/
structure Key where
  note : Nat
  polygon : List Pt
  type : KeyType
deriving DecidableEq, Repr

instance : Inhabited Key := ⟨⟨0, [], KeyType.white⟩⟩

/-- getPolygonCenter (script.js:2157-2162): the mean of the vertices,
[0,0] for an empty list. -/
def getPolygonCenter (pts : List Pt) : Pt :=
  if pts.length = 0 then (0, 0)
  else ((pts.map Prod.fst).sum / pts.length, (pts.map Prod.snd).sum / pts.length)

/-- Axis-aligned bounding box of the key layout (getKeysBoundingBox,
script.js:2165-2189); centre, width and height are derived below. -/
structure Bounds where
  minX : ℚ
  minY : ℚ
  maxX : ℚ
  maxY : ℚ
deriving DecidableEq, Repr

def Bounds.centerX (b : Bounds) : ℚ := (b.minX + b.maxX) / 2

def Bounds.centerY (b : Bounds) : ℚ := (b.minY + b.maxY) / 2

def Bounds.height (b : Bounds) : ℚ := b.maxY - b.minY

/-- getKeysBoundingBox (script.js:2165-2189): min/max over every vertex of
every key polygon; none when there is no vertex at all (the source starts
from Infinity and returns null when minX stays Infinity). -/
def getKeysBoundingBox (keys : List Key) : Option Bounds :=
  match (keys.map Key.polygon).flatten with
  | [] => none
  | p :: rest =>
    some (rest.foldl
      (fun b q => ⟨min b.minX q.1, min b.minY q.2, max b.maxX q.1, max b.maxY q.2⟩)
      ⟨p.1, p.2, p.1, p.2⟩)

/-- The user-controlled piano transform (pianoTransform, script.js:113-122)
restricted to the fields the display/detection maps read.  The rotation is
carried separately as the pair (cos angle, sin angle) because the source
evaluates Math.cos / Math.sin of the configured angle. -/
structure PianoTransform where
  scale : ℚ
  translateX : ℚ
  translateY : ℚ
  flipH : Bool
  flipV : Bool
deriving Repr

/-- Forward display transform of drawAllKeys (script.js:2215-2218): the
canvas context receives translate(canvasCenter + translate), rotate(angle),
scale(scale*(flipH ? -1 : 1), scale*(flipV ? -1 : 1)),
translate(-keysBounds.center), so a layout point p is mapped to
canvasCenter + translate + R(angle) (S (p - center)). -/
def forwardTransform (t : PianoTransform) (cosA sinA : ℚ)
    (canvasCenter center p : Pt) : Pt :=
  let q1 := p.1 - center.1
  let q2 := p.2 - center.2
  let s1 := t.scale * (if t.flipH then -1 else 1) * q1
  let s2 := t.scale * (if t.flipV then -1 else 1) * q2
  let r1 := s1 * cosA - s2 * sinA
  let r2 := s1 * sinA + s2 * cosA
  (r1 + canvasCenter.1 + t.translateX, r2 + canvasCenter.2 + t.translateY)

/-- transformPointForDetection (script.js:2365-2396): subtract canvas centre
and translation, rotate by the negated angle (cos(-a) = cos a,
sin(-a) = -sin a), divide by scale, undo the flips, and re-anchor at the
layout bounds centre. -/
def transformPointForDetection (t : PianoTransform) (cosA sinA : ℚ)
    (canvasCenter center : Pt) (p : Pt) : Pt :=
  let tx := p.1 - canvasCenter.1 - t.translateX
  let ty := p.2 - canvasCenter.2 - t.translateY
  let c := cosA
  let s := -sinA
  let rx := tx * c - ty * s
  let ry := tx * s + ty * c
  let sx := rx / t.scale
  let sy := ry / t.scale
  let fx := if t.flipH then -sx else sx
  let fy := if t.flipV then -sy else sy
  (fx + center.1, fy + center.2)

/-- The (current, previous) vertex pairs visited by both crossing-number
loops of the source: for index j = 0..n-1 the partner is index j-1, with
index n-1 as partner of j = 0 (script.js:1050 and script.js:2442). -/
def edgePairs (poly : List Pt) : List (Pt × Pt) :=
  match poly.getLast? with
  | none => []
  | some l => poly.zip (l :: poly.dropLast)

/-- One iteration of the inline crossing-number loop of the per-finger hit
test (script.js:1050-1055).  The division by (yj - yi) carries no epsilon;
it is total ℚ division here, and the JavaScript division is only evaluated
when the conjunct (yi > ty) ≠ (yj > ty) holds, which forces yj ≠ yi. -/
def inlineCrossStep (tx ty : ℚ) (inside : Bool) (e : Pt × Pt) : Bool :=
  let xi := e.1.1
  let yi := e.1.2
  let xj := e.2.1
  let yj := e.2.2
  if (decide (yi > ty) != decide (yj > ty))
      && decide (tx < (xj - xi) * (ty - yi) / (yj - yi) + xi)
  then !inside else inside

/-- The inline point-in-polygon test of the per-finger hit loop
(script.js:1048-1055). -/
def inlineInside (tx ty : ℚ) (poly : List Pt) : Bool :=
  (edgePairs poly).foldl (inlineCrossStep tx ty) false

/-- The epsilon the isPointInPolygon helper adds to its denominator
(script.js:2446), 1e-10. -/
def EPSILON : ℚ := 1 / 10000000000

/-- One iteration of the crossing-number loop of the isPointInPolygon
helper (script.js:2442-2448): identical to the inline loop except that the
denominator is (yj - yi + 1e-10). -/
def guardedCrossStep (x y : ℚ) (inside : Bool) (e : Pt × Pt) : Bool :=
  let xi := e.1.1
  let yi := e.1.2
  let xj := e.2.1
  let yj := e.2.2
  if (decide (yi > y) != decide (yj > y))
      && decide (x < (xj - xi) * (y - yi) / (yj - yi + EPSILON) + xi)
  then !inside else inside

/-- Polygon-containment part of the isPointInPolygon helper
(script.js:2436-2450), after its initial transformPointForDetection call. -/
def isPointInPolygonRaw (x y : ℚ) (poly : List Pt) : Bool :=
  (edgePairs poly).foldl (guardedCrossStep x y) false

/-- Variant of the inline step that consults the division only on edges
with yi ≠ yj; used to state that the unguarded division of the inline test
is never evaluated on an exactly horizontal edge. -/
def inlineCrossStepChecked (tx ty : ℚ) (inside : Bool) (e : Pt × Pt) : Bool :=
  let xi := e.1.1
  let yi := e.1.2
  let xj := e.2.1
  let yj := e.2.2
  if yi = yj then inside
  else if (decide (yi > ty) != decide (yj > ty))
      && decide (tx < (xj - xi) * (ty - yi) / (yj - yi) + xi)
  then !inside else inside

/-- Inline containment computed with the division restricted to
non-horizontal edges. -/
def inlineInsideChecked (tx ty : ℚ) (poly : List Pt) : Bool :=
  (edgePairs poly).foldl (inlineCrossStepChecked tx ty) false

/-- The per-key skip condition of drawAllKeys (script.js:2231 and 2245):
a key is skipped for rendering exactly when its polygon is empty. -/
def drawSkipsKey (k : Key) : Bool := k.polygon.isEmpty

/-- The dead-band fraction around the red separator line
(RED_LINE_BUFFER, script.js:127), 0.025. -/
def RED_LINE_BUFFER : ℚ := 1 / 40

/-- Upper and lower edge of the red-line dead band (script.js:1034-1037):
redLineY = minY + height*pos, buffer = height*RED_LINE_BUFFER, band =
(redLineY - buffer, redLineY + buffer). -/
def redBand (b : Bounds) (pos : ℚ) : ℚ × ℚ :=
  let redLineY := b.minY + b.height * pos
  let buf := b.height * RED_LINE_BUFFER
  (redLineY - buf, redLineY + buf)

/-- The vertical band filter applied to a key containing the finger point
(script.js:1039-1042 and 1058-1069): above the band only black keys pass,
below it only white keys, inside the dead band both. -/
def bandPass (upperBand lowerBand ty : ℚ) (t : KeyType) : Bool :=
  let isAbove := decide (ty < upperBand)
  let isBelow := decide (ty > lowerBand)
  if !isAbove && !isBelow then true
  else if isAbove && !(t == KeyType.black) then false
  else if isBelow && !(t == KeyType.white) then false
  else true

/-- Squared distance from the point (tx, ty) to c; the source compares
Math.sqrt of this value (script.js:1073-1075), and sqrt is monotone. -/
def sqDist (tx ty : ℚ) (c : Pt) : ℚ := (tx - c.1) ^ 2 + (ty - c.2) ^ 2

/-- Candidate keys for one finger (the fingerKeys list, script.js:1044-1084):
every key index whose polygon contains the transformed point and which
passes the band filter, paired with its squared centroid distance. -/
def collectFingerKeys (keys : List Key) (tx ty upperBand lowerBand : ℚ) :
    List (Nat × ℚ) :=
  (List.range keys.length).filterMap (fun i =>
    match keys.get? i with
    | none => none
    | some k =>
      if inlineInside tx ty k.polygon then
        if bandPass upperBand lowerBand ty k.type then
          some (i, sqDist tx ty (getPolygonCenter k.polygon))
        else none
      else none)

/-- The frame-count thresholds of the trigger machinery
(REST_THRESHOLD_FRAMES and TRIGGER_COOLDOWN_FRAMES, script.js:63, 68);
both are adjustable at runtime, the defaults are 5 and 8. -/
structure TriggerConfig where
  restThresholdFrames : Nat
  triggerCooldownFrames : Nat
deriving DecidableEq, Repr

/-- The default slider values (script.js:63, 68). -/
def defaultTriggerConfig : TriggerConfig := ⟨5, 8⟩

/-- Per-finger mutable state: fingerRestFrames, fingerTriggeredKeys,
fingerTriggerFrames (missing entry modelled as 0, matching the source's
`|| 0`), fingerPreviousKeys and fingerKeyMapping (script.js:57-67). -/
structure FingerState where
  restFrames : Nat
  lastTriggeredKey : Option Nat
  lastTriggerFrame : Nat
  prevKey : Option Nat
  keyMapping : Option Nat
deriving DecidableEq, Repr

/-- MOVEMENT_THRESHOLD and DOWNWARD_MOVEMENT_THRESHOLD defaults
(script.js:61-62). -/
def MOVEMENT_THRESHOLD : ℚ := 10

def DOWNWARD_MOVEMENT_THRESHOLD : ℚ := 8

/-- Movement classification and rest-counter update for one finger
(script.js:981-1012): squared distance against the squared movement
threshold (the source compares the square root), vertical delta against the
downward threshold; a first-seen finger starts at the rest threshold.
Returns (hasMovement, hasDownwardMovement, new rest counter). -/
def movementFlags (moveThreshold downThreshold : ℚ) (restInit : Nat)
    (prev : Option Pt) (cur : Pt) (restFrames : Nat) : Bool × Bool × Nat :=
  match prev with
  | none => (false, false, restInit)
  | some p =>
    let dx := cur.1 - p.1
    let dy := cur.2 - p.2
    let hasMovement := decide (dx ^ 2 + dy ^ 2 > moveThreshold ^ 2)
    let hasDownward := decide (dy > downThreshold)
    (hasMovement, hasDownward,
      if hasMovement || hasDownward then 0 else restFrames + 1)

/-- Trigger decision for one finger once a key has been selected for it
(script.js:1096-1149; the multi-key and single-key branches run identical
code given selectedKeyIndex).  Returns whether the key index is asserted
into rawDetectedKeys this frame, and the updated finger state. -/
def triggerDecision (cfg : TriggerConfig) (frame : Nat)
    (hasMovement hasDownward : Bool) (st : FingerState) (k : Nat) :
    Bool × FingerState :=
  let keyChanged := decide (st.prevKey ≠ none ∧ st.prevKey ≠ some k)
  let framesSince := frame - st.lastTriggerFrame
  let inCooldown := decide (st.lastTriggeredKey ≠ none ∧
    framesSince < cfg.triggerCooldownFrames)
  let sameKey := decide (st.lastTriggeredKey = some k)
  let canTrigger := !inCooldown || keyChanged ||
    (sameKey && decide (cfg.triggerCooldownFrames ≤ framesSince))
  let shouldTrigger := canTrigger && (hasMovement || hasDownward || keyChanged)
  if shouldTrigger then
    (true, { restFrames := 0, lastTriggeredKey := some k,
             lastTriggerFrame := frame, prevKey := some k,
             keyMapping := some k })
  else if decide (st.keyMapping = some k) && hasDownward &&
      !(decide (cfg.restThresholdFrames ≤ st.restFrames)) then
    (true, st)
  else
    (false, st)

/-- Per-finger processing after the position/rest update: the rest gate
(script.js:1014-1027) and then, given the selected key from the hit
resolution if any, the trigger decision; when no key contains the finger
the mapping and previous key are cleared (script.js:1150-1160). -/
def processFinger (cfg : TriggerConfig) (frame : Nat)
    (hasMovement hasDownward : Bool) (st : FingerState)
    (selected : Option Nat) : Bool × FingerState :=
  if decide (cfg.restThresholdFrames ≤ st.restFrames) &&
      !hasDownward && !hasMovement then
    (false, st)
  else
    match selected with
    | none => (false, { st with keyMapping := none, prevKey := none })
    | some k => triggerDecision cfg frame hasMovement hasDownward st k

/-- Minimum of a list of squared distances, starting from JavaScript's
Infinity (script.js:1210-1218); none plays the role of Infinity. -/
def minDistOpt (ds : List ℚ) : Option ℚ :=
  ds.foldl
    (fun m d => match m with | none => some d | some m0 => some (min m0 d))
    none

/-- Order on optional distances with none as Infinity, the order the
limiter's sort uses (script.js:1224). -/
def optLe : Option ℚ → Option ℚ → Bool
  | _, none => true
  | none, some _ => false
  | some a, some b => decide (a ≤ b)

/-- Squared distance from the centroid of key i to the nearest tracked
fingertip (script.js:1208-1221). -/
def keyMinSqDist (keys : List Key) (fingers : List Pt) (i : Nat) : Option ℚ :=
  minDistOpt (fingers.map (fun f =>
    sqDist f.1 f.2 (getPolygonCenter ((keys.getD i default).polygon))))

/-- The concurrency limiter (script.js:1165-1237).  raw is the asserted key
set as a duplicate-free list, thumbKeyIndex the key the thumb tip is inside
if any, fingers all transformed fingertip positions.  When more than two
keys are asserted: keep the thumb key (when it is asserted) plus the other
asserted key nearest to any fingertip, otherwise the two nearest. -/
def limitKeys (keys : List Key) (fingers : List Pt)
    (thumbKeyIndex : Option Nat) (raw : List Nat) : List Nat :=
  if raw.length ≤ 2 then raw
  else
    let thumbKey : Option Nat :=
      match thumbKeyIndex with
      | some t => if t ∈ raw then some t else none
      | none => none
    let otherKeys := raw.filter (fun i => decide (thumbKeyIndex ≠ some i))
    let withD := otherKeys.map (fun i => (i, keyMinSqDist keys fingers i))
    let sorted := withD.mergeSort (fun a b => optLe a.2 b.2)
    match thumbKey with
    | some t => t :: (sorted.take 1).map Prod.fst
    | none => (sorted.take 2).map Prod.fst

/-- Smoothing constants (script.js:51-53): window length 3, activation
threshold 0.5, deactivation threshold 0.3 by default. -/
def SMOOTHING_FRAMES : Nat := 3

def ACTIVATION_THRESHOLD : ℚ := 1 / 2

def DEACTIVATION_THRESHOLD : ℚ := 3 / 10

/-- Detection-history push for one key (script.js:1240-1250 and
1350-1359): append the sample, then drop the oldest entry once the window
length exceeds the smoothing window. -/
def pushSample (window : Nat) (h : List Nat) (s : Nat) : List Nat :=
  let h' := h ++ [s]
  if window < h'.length then h'.tail else h'

/-- detectionRate (script.js:1266): mean of the rolling window. -/
def detectionRate (h : List Nat) : ℚ := (h.sum : ℚ) / (h.length : ℚ)

/-- The two-threshold hysteresis update (script.js:1267-1277): an inactive
key activates once the rate reaches the activation threshold, an active key
deactivates once the rate falls below the deactivation threshold, otherwise
the state is kept. -/
def hysteresisStep (actThreshold deactThreshold : ℚ) (active : Bool)
    (rate : ℚ) : Bool :=
  if ¬active ∧ actThreshold ≤ rate then true
  else if active ∧ rate < deactThreshold then false
  else active

/-- The per-key smoothing stage (script.js:1254-1278) including its
empty-history branch (1257-1264), which fills the window with ones and
activates a currently detected key; raw is whether rawDetectedKeys holds
the key this frame.  Returns (new history, new active flag). -/
def smoothKey (window : Nat) (actThreshold deactThreshold : ℚ) (raw : Bool)
    (h : List Nat) (active : Bool) : List Nat × Bool :=
  if h.isEmpty then
    if raw then (List.replicate window 1, true) else (h, active)
  else
    (h, hysteresisStep actThreshold deactThreshold active (detectionRate h))

/-- One key's full per-frame pipeline: history push (script.js:1240-1250)
followed by the smoothing stage (script.js:1254-1278). -/
def keyFrameUpdate (window : Nat) (actThreshold deactThreshold : ℚ)
    (raw : Bool) (h : List Nat) (active : Bool) : List Nat × Bool :=
  let h' := pushSample window h (if raw then 1 else 0)
  smoothKey window actThreshold deactThreshold raw h' active

/-- The per-frame smoothing pass over every key of the layout
(the two exportKeys.forEach loops, script.js:1240-1278); per-key state is
independent, so running the push loop for all keys before the smoothing
loop equals composing them per key. -/
def frameSmoothing (window : Nat) (actThreshold deactThreshold : ℚ)
    (raw : Nat → Bool) (states : List (List Nat × Bool)) :
    List (List Nat × Bool) :=
  states.enum.map (fun p =>
    keyFrameUpdate window actThreshold deactThreshold (raw p.1) p.2.1 p.2.2)

/-- Number of inactive-to-active transitions of one key over a run of raw
samples, starting from the given history and active flag. -/
def countRises (window : Nat) (actThreshold deactThreshold : ℚ) :
    List Bool → List Nat → Bool → Nat
  | [], _, _ => 0
  | raw :: rest, h, a =>
    let p := keyFrameUpdate window actThreshold deactThreshold raw h a
    (if a = false ∧ p.2 = true then 1 else 0) +
      countRises window actThreshold deactThreshold rest p.1 p.2

/-- Number of active-to-inactive transitions of one key over a run of raw
samples. -/
def countFalls (window : Nat) (actThreshold deactThreshold : ℚ) :
    List Bool → List Nat → Bool → Nat
  | [], _, _ => 0
  | raw :: rest, h, a =>
    let p := keyFrameUpdate window actThreshold deactThreshold raw h a
    (if a = true ∧ p.2 = false then 1 else 0) +
      countFalls window actThreshold deactThreshold rest p.1 p.2

/-- Note identifier of key i (exportKeys[i].note). -/
def keyNote (keys : List Key) (i : Nat) : Nat := (keys.getD i default).note

/-- Mean x-coordinate of a key's polygon, the sort key of the left-to-right
event ordering (script.js:1296-1300). -/
def keyCenterX (k : Key) : ℚ := (k.polygon.map Prod.fst).sum / k.polygon.length

/-- JavaScript Set construction from a list: first occurrence kept, in
insertion order. -/
def dedupFirst : List Nat → List Nat
  | [] => []
  | n :: rest => n :: (dedupFirst rest).filter (fun m => decide (m ≠ n))

/-- The events of one frame: note-ons, note-offs, and the new
currentlyHoveredNotes set. -/
structure EmitResult where
  ons : List Nat
  offs : List Nat
  current : List Nat
deriving DecidableEq, Repr

/-- Event emission on a frame with detected hands (script.js:1288-1316):
active key indices are sorted left-to-right, mapped to note identifiers and
collected into a set; notes in the new set but not sounding get a note-on,
sounding notes absent from the new set get a note-off. -/
def emitWithHands (keys : List Key) (active currentNotes : List Nat) :
    EmitResult :=
  let sortedIdx := active.mergeSort (fun a b =>
    decide (keyCenterX (keys.getD a default) ≤ keyCenterX (keys.getD b default)))
  let newNotes := dedupFirst (sortedIdx.map (fun i => keyNote keys i))
  { ons := newNotes.filter (fun n => decide (n ∉ currentNotes))
    offs := currentNotes.filter (fun n => decide (n ∉ newNotes))
    current := newNotes }

/-- Event emission on a frame with no detected hands (script.js:1339-1383):
no note-ons; all sounding notes are stopped only when the drained active
set is completely empty, otherwise nothing is emitted and the sounding set
is left as it is. -/
def emitNoHands (active currentNotes : List Nat) : EmitResult :=
  if active.isEmpty then { ons := [], offs := currentNotes, current := [] }
  else { ons := [], offs := [], current := currentNotes }

/-! Helper lemmas shared by the claim theorems. -/

lemma vpAux_bne_comm (a b : Bool) : (a != b) = (b != a) := by
  cases a <;> cases b <;> rfl

lemma vpAux_crossStep_checked (tx ty : ℚ) (inside : Bool) (e : Pt × Pt) :
    inlineCrossStep tx ty inside e = inlineCrossStepChecked tx ty inside e := by
  unfold inlineCrossStep inlineCrossStepChecked
  by_cases h : e.1.2 = e.2.2
  · simp [h]
  · simp [h]

lemma vpAux_inline_nil (tx ty : ℚ) : inlineInside tx ty [] = false := rfl

lemma vpAux_inline_single (tx ty : ℚ) (p : Pt) :
    inlineInside tx ty [p] = false := by
  obtain ⟨px, py⟩ := p
  simp [inlineInside, edgePairs, inlineCrossStep]

lemma vpAux_inline_pair (tx ty : ℚ) (p q : Pt) :
    inlineInside tx ty [p, q] = false := by
  obtain ⟨px, py⟩ := p
  obtain ⟨qx, qy⟩ := q
  have hep : edgePairs [((px, py) : Pt), (qx, qy)]
      = [(((px, py) : Pt), ((qx, qy) : Pt)), ((qx, qy), (px, py))] := rfl
  show (edgePairs [((px, py) : Pt), (qx, qy)]).foldl (inlineCrossStep tx ty) false
      = false
  rw [hep]
  by_cases hy : py = qy
  · simp [inlineCrossStep, hy]
  · have h1 : qy - py ≠ 0 := sub_ne_zero.mpr (Ne.symm hy)
    have h2 : py - qy ≠ 0 := sub_ne_zero.mpr hy
    have heq : (qx - px) * (ty - py) / (qy - py) + px
        = (px - qx) * (ty - qy) / (py - qy) + qx := by
      field_simp
      ring
    simp only [List.foldl, inlineCrossStep]
    rw [heq]
    have hbne : (decide (py > ty) != decide (qy > ty))
        = (decide (qy > ty) != decide (py > ty)) := by
      cases hd1 : decide (py > ty) <;> cases hd2 : decide (qy > ty) <;> rfl
    rw [hbne]
    cases (decide (qy > ty) != decide (py > ty)) &&
        decide (tx < (px - qx) * (ty - qy) / (py - qy) + qx) <;> simp

lemma vpAux_mem_collect {keys : List Key} {tx ty u l : ℚ} {i : Nat} {d : ℚ} :
    (i, d) ∈ collectFingerKeys keys tx ty u l ↔
    ∃ k, keys.get? i = some k ∧ inlineInside tx ty k.polygon = true ∧
      bandPass u l ty k.type = true ∧
      d = sqDist tx ty (getPolygonCenter k.polygon) := by
  unfold collectFingerKeys
  rw [List.mem_filterMap]
  constructor
  · rintro ⟨j, hjr, hf⟩
    rcases hget : keys.get? j with _ | k
    · rw [hget] at hf
      simp at hf
    · rw [hget] at hf
      by_cases h1 : inlineInside tx ty k.polygon
      · by_cases h2 : bandPass u l ty k.type
        · simp only [h1, h2, if_true] at hf
          rw [Option.some_inj, Prod.mk.injEq] at hf
          obtain ⟨hji, hd⟩ := hf
          subst hji
          exact ⟨k, hget, h1, h2, hd.symm⟩
        · simp [h1, h2] at hf
      · simp [h1] at hf
  · rintro ⟨k, hget, h1, h2, hd⟩
    refine ⟨i, List.mem_range.mpr ?_, ?_⟩
    · obtain ⟨hlt, _⟩ := List.get?_eq_some.mp hget
      exact hlt
    · rw [hget]
      simp [h1, h2, hd]

/-! Claim theorems. -/

/-- C5: Transform round-trip: for every layout point, every transform with
positive scale, any rotation (any cos/sin pair on the unit circle), any
translation and any flip flags, transformPointForDetection inverts the
forward display transform exactly over exact arithmetic. -/
theorem vp_C5 (t : PianoTransform) (cosA sinA : ℚ) (canvasCenter center p : Pt)
    (hcs : cosA ^ 2 + sinA ^ 2 = 1) (hs : 0 < t.scale) :
    transformPointForDetection t cosA sinA canvasCenter center
      (forwardTransform t cosA sinA canvasCenter center p) = p := by
  have hs' : t.scale ≠ 0 := ne_of_gt hs
  obtain ⟨px, py⟩ := p
  obtain ⟨cx, cy⟩ := center
  obtain ⟨ccx, ccy⟩ := canvasCenter
  simp only [transformPointForDetection, forwardTransform]
  obtain ⟨sc, trX, trY, fH, fV⟩ := t
  simp only at hs' ⊢
  cases fH <;> cases fV <;>
    · simp only [if_true, if_false, Bool.false_eq_true, ite_true, ite_false]
      refine Prod.ext ?_ ?_ <;>
        · simp only
          field_simp
          first
          | linear_combination (sc * (px - cx)) * hcs
          | linear_combination (sc * (py - cy)) * hcs

/-- Witness for C5 at a concrete rotation (3/5, 4/5), scale 2, translation
(7, -3), both flips set, layout centre (10, 20), canvas centre (320, 240),
point (1, 2). -/
theorem vp_C5_witness :
    ((3 : ℚ)/5) ^ 2 + ((4 : ℚ)/5) ^ 2 = 1 ∧ (0 : ℚ) < 2 ∧
    transformPointForDetection ⟨2, 7, -3, true, true⟩ (3/5) (4/5) (320, 240) (10, 20)
      (forwardTransform ⟨2, 7, -3, true, true⟩ (3/5) (4/5) (320, 240) (10, 20) (1, 2))
      = (1, 2) :=
  ⟨by norm_num, by norm_num,
    vp_C5 ⟨2, 7, -3, true, true⟩ (3/5) (4/5) (320, 240) (10, 20) (1, 2)
      (by norm_num) (by norm_num)⟩

/-- C8 (amended): only the isPointInPolygon helper guards its division with
the 1e-10 epsilon; the inline per-finger test divides by (yj - yi)
unguarded, but that division is consulted only on edges whose endpoints
straddle ty, which excludes exactly horizontal edges: the inline test
agrees everywhere with the variant that refuses to divide on a horizontal
edge, so a horizontal edge cannot contribute a division by zero to the hit
result. -/
theorem vp_C8_amended :
    ∀ (tx ty : ℚ) (poly : List Pt),
      inlineInside tx ty poly = inlineInsideChecked tx ty poly := by
  intro tx ty poly
  unfold inlineInside inlineInsideChecked
  have h : inlineCrossStep tx ty = inlineCrossStepChecked tx ty :=
    funext fun inside => funext fun e => vpAux_crossStep_checked tx ty inside e
  rw [h]

/-- C8 counterexample: the inline per-finger containment test and the
epsilon-guarded isPointInPolygon helper disagree on a polygon with a
nearly horizontal edge, so the inline division is not guarded by the
epsilon the claim asserts for every point-in-polygon test. -/
theorem vp_C8_cex :
    inlineInside (1/4) EPSILON [(0, 0), (1, 2 * EPSILON), (1, 1), (0, 1)] = true
    ∧ isPointInPolygonRaw (1/4) EPSILON [(0, 0), (1, 2 * EPSILON), (1, 1), (0, 1)]
      = false := by
  constructor
  · norm_num [inlineInside, edgePairs, inlineCrossStep, EPSILON]
  · norm_num [isPointInPolygonRaw, edgePairs, guardedCrossStep, EPSILON]

/-- C9 (amended): a key whose polygon has fewer than three points is never
reported as containing any point by the inline hit test, hence is never
selected; candidate collection judges every key independently, so every
well-formed containing key still becomes a candidate; rendering, however,
skips exactly the keys with an empty polygon, so 1- and 2-point polygons
are still passed to the drawing routine. -/
theorem vp_C9_amended :
    (∀ (tx ty : ℚ) (poly : List Pt), poly.length < 3 →
      inlineInside tx ty poly = false)
    ∧ (∀ k : Key, drawSkipsKey k = true ↔ k.polygon = [])
    ∧ (∀ (keys : List Key) (tx ty u l : ℚ) (i : Nat) (d : ℚ),
        (i, d) ∈ collectFingerKeys keys tx ty u l →
        ∃ k, keys.get? i = some k ∧ 3 ≤ k.polygon.length)
    ∧ (∀ (keys : List Key) (tx ty u l : ℚ) (i : Nat) (k : Key),
        keys.get? i = some k → inlineInside tx ty k.polygon = true →
        bandPass u l ty k.type = true →
        (i, sqDist tx ty (getPolygonCenter k.polygon))
          ∈ collectFingerKeys keys tx ty u l) := by
  refine ⟨?_, ?_, ?_, ?_⟩
  · intro tx ty poly hlen
    match poly with
    | [] => exact vpAux_inline_nil tx ty
    | [p] => exact vpAux_inline_single tx ty p
    | [p, q] => exact vpAux_inline_pair tx ty p q
    | p :: q :: r :: rest => simp at hlen; omega
  · intro k
    simp [drawSkipsKey, List.isEmpty_iff]
  · intro keys tx ty u l i d hmem
    obtain ⟨k, hget, h1, _, _⟩ := vpAux_mem_collect.mp hmem
    refine ⟨k, hget, ?_⟩
    by_contra hlt
    push_neg at hlt
    have : inlineInside tx ty k.polygon = false := by
      match hp : k.polygon with
      | [] => exact vpAux_inline_nil tx ty
      | [p] => exact vpAux_inline_single tx ty p
      | [p, q] => exact vpAux_inline_pair tx ty p q
      | p :: q :: r :: rest => rw [hp] at hlt; simp at hlt; omega
    rw [this] at h1
    exact Bool.false_ne_true h1
  · intro keys tx ty u l i k hget h1 h2
    exact vpAux_mem_collect.mpr ⟨k, hget, h1, h2, rfl⟩

/-- Witness for C9 (amended): a 2-point polygon never contains the origin. -/
theorem vp_C9_witness :
    (([(0, 0), (1, 1)] : List Pt).length < 3)
    ∧ inlineInside 0 0 [(0, 0), (1, 1)] = false :=
  ⟨by decide, vp_C9_amended.1 0 0 [(0, 0), (1, 1)] (by decide)⟩

/-- C9 counterexample: a key whose polygon has only two points is not
skipped by the rendering loop (drawAllKeys skips only empty polygons),
contradicting the claim that keys with fewer than three points are skipped
for rendering. -/
theorem vp_C9_cex :
    drawSkipsKey ⟨0, [(0, 0), (1, 1)], KeyType.white⟩ = false
    ∧ (([(0, 0), (1, 1)] : List Pt).length < 3) :=
  ⟨rfl, by decide⟩

/-- C1: Trigger cooldown with key-change bypass: when the selected key
equals the finger's last-triggered key, fewer than the cooldown frames have
elapsed, and the finger has no movement, no downward movement and no key
change, the key is not asserted this frame; conversely a key change (the
selected key differs from the previously assigned key) asserts the key even
inside the cooldown window.  A key is only selected for a finger that
passed the rest gate (script.js:1023-1027), which the bypass part records
as its third hypothesis. -/
theorem vp_C1 (cfg : TriggerConfig) (frame : Nat) (st : FingerState) (k : Nat) :
    (st.lastTriggeredKey = some k →
      frame - st.lastTriggerFrame < cfg.triggerCooldownFrames →
      (st.prevKey = none ∨ st.prevKey = some k) →
      (processFinger cfg frame false false st (some k)).1 = false)
    ∧ (∀ (hasMovement hasDownward : Bool) (p : Nat),
        st.prevKey = some p → p ≠ k →
        (st.restFrames < cfg.restThresholdFrames ∨ hasMovement = true ∨
          hasDownward = true) →
        frame - st.lastTriggerFrame < cfg.triggerCooldownFrames →
        (processFinger cfg frame hasMovement hasDownward st (some k)).1 = true) := by
  constructor
  · intro hlast hcool hprev
    have hkc : ¬(st.prevKey ≠ none ∧ st.prevKey ≠ some k) := by
      rcases hprev with h | h <;> simp [h]
    unfold processFinger triggerDecision
    by_cases hrest : cfg.restThresholdFrames ≤ st.restFrames
    · simp [hrest]
    · simp [hrest, hkc]
  · intro hM hD p hprev hpk hgate hcool
    have hkc : st.prevKey ≠ none ∧ st.prevKey ≠ some k := by
      constructor
      · rw [hprev]; exact Option.some_ne_none p
      · rw [hprev]; intro h; exact hpk (Option.some_inj.mp h)
    unfold processFinger triggerDecision
    have hgatef : (decide (cfg.restThresholdFrames ≤ st.restFrames) &&
        !hD && !hM) = false := by
      rcases hgate with h | h | h
      · simp [Nat.not_le.mpr h]
      · simp [h]
      · simp [h]
    rw [hgatef]
    simp [hkc]

/-- Witness for C1 at the default thresholds: a finger that triggered key 3
at frame 10 and re-selects key 3 at frame 12 with no movement is
suppressed, while the same finger re-selecting key 4 asserts immediately. -/
theorem vp_C1_witness :
    (processFinger defaultTriggerConfig 12 false false
      ⟨0, some 3, 10, some 3, some 3⟩ (some 3)).1 = false
    ∧ (processFinger defaultTriggerConfig 12 false false
      ⟨0, some 3, 10, some 3, some 3⟩ (some 4)).1 = true :=
  ⟨(vp_C1 defaultTriggerConfig 12 ⟨0, some 3, 10, some 3, some 3⟩ 3).1
      rfl (by decide) (Or.inr rfl),
    (vp_C1 defaultTriggerConfig 12 ⟨0, some 3, 10, some 3, some 3⟩ 4).2
      false false 3 rfl (by decide) (Or.inl (by decide)) (by decide)⟩

/-- C4 counterexample: at the default thresholds, a finger whose cooldown
has long elapsed (frame 100, last trigger at frame 0) but which shows no
movement, no downward press and no key change does not get its selected
key asserted, against the claim that an elapsed cooldown alone suffices;
and a finger with generic movement inside the cooldown window on the same
key (frame 12, last trigger at frame 10) is not asserted either, against
the claim that generic movement during cooldown on the same key suffices. -/
theorem vp_C4_cex :
    (defaultTriggerConfig.triggerCooldownFrames ≤ 100 - 0
      ∧ (processFinger defaultTriggerConfig 100 false false
          ⟨1, some 0, 0, some 0, some 0⟩ (some 0)).1 = false)
    ∧ (12 - 10 < defaultTriggerConfig.triggerCooldownFrames
      ∧ (processFinger defaultTriggerConfig 12 true false
          ⟨0, some 0, 10, some 0, some 0⟩ (some 0)).1 = false) := by decide

/-- C4 (amended): for a finger past the rest gate with a selected key, the
key is asserted with full bookkeeping update (assigned key, triggered key,
trigger frame, rest counter reset to 0) when BOTH a trigger permission
holds (no earlier trigger, or cooldown elapsed, or key change) AND a
trigger cause occurs this frame (movement, downward press, or key change);
with no movement, no downward press and no key change nothing is asserted,
even when the cooldown has elapsed; and on the same key inside the
cooldown window, nothing is asserted without a downward press, even with
generic movement (the sustain path requires a downward press). -/
theorem vp_C4_amended (cfg : TriggerConfig) (frame : Nat)
    (hasMovement hasDownward : Bool) (st : FingerState) (k : Nat)
    (hgate : st.restFrames < cfg.restThresholdFrames ∨ hasMovement = true ∨
      hasDownward = true) :
    ((st.lastTriggeredKey = none ∨
        cfg.triggerCooldownFrames ≤ frame - st.lastTriggerFrame ∨
        (st.prevKey ≠ none ∧ st.prevKey ≠ some k)) →
      (hasMovement = true ∨ hasDownward = true ∨
        (st.prevKey ≠ none ∧ st.prevKey ≠ some k)) →
      processFinger cfg frame hasMovement hasDownward st (some k)
        = (true, ⟨0, some k, frame, some k, some k⟩))
    ∧ (hasMovement = false → hasDownward = false →
        (st.prevKey = none ∨ st.prevKey = some k) →
        (processFinger cfg frame hasMovement hasDownward st (some k)).1
          = false)
    ∧ (hasDownward = false → st.lastTriggeredKey = some k →
        frame - st.lastTriggerFrame < cfg.triggerCooldownFrames →
        (st.prevKey = none ∨ st.prevKey = some k) →
        (processFinger cfg frame hasMovement hasDownward st (some k)).1
          = false) := by
  have hgatef : (decide (cfg.restThresholdFrames ≤ st.restFrames) &&
      !hasDownward && !hasMovement) = false := by
    rcases hgate with h | h | h
    · simp [Nat.not_le.mpr h]
    · simp [h]
    · simp [h]
  refine ⟨?_, ?_, ?_⟩
  · intro hcan hassert
    unfold processFinger
    rw [hgatef]
    simp only [Bool.false_eq_true, if_false]
    unfold triggerDecision
    rcases hcan with h | h | h <;> rcases hassert with h' | h' | h' <;>
      simp [h, h', Nat.not_lt.mpr]
  · intro hM hD hprev
    subst hM; subst hD
    have hkc : ¬(st.prevKey ≠ none ∧ st.prevKey ≠ some k) := by
      rcases hprev with h | h <;> simp [h]
    unfold processFinger triggerDecision
    by_cases hrest : cfg.restThresholdFrames ≤ st.restFrames
    · simp [hrest]
    · simp [hrest, hkc]
  · intro hD hlast hcool hprev
    subst hD
    have hkc : ¬(st.prevKey ≠ none ∧ st.prevKey ≠ some k) := by
      rcases hprev with h | h <;> simp [h]
    unfold processFinger triggerDecision
    by_cases hrest : cfg.restThresholdFrames ≤ st.restFrames
    · cases hasMovement
      · simp [hrest]
      · simp [hrest, hkc, hlast, hcool, Nat.not_le.mpr hcool]
    · simp [hrest, hkc, hlast, hcool, Nat.not_le.mpr hcool]

/-- Witness for C4 (amended): a moving finger whose cooldown elapsed
asserts with full bookkeeping; a motionless finger on the same key does not
assert despite the elapsed cooldown; a moving finger on the same key inside
the cooldown window without a downward press does not assert. -/
theorem vp_C4_witness :
    processFinger defaultTriggerConfig 20 true false
      ⟨0, some 1, 5, some 1, some 1⟩ (some 1)
      = (true, ⟨0, some 1, 20, some 1, some 1⟩)
    ∧ (processFinger defaultTriggerConfig 100 false false
        ⟨1, some 0, 0, some 0, some 0⟩ (some 0)).1 = false
    ∧ (processFinger defaultTriggerConfig 12 true false
        ⟨0, some 0, 10, some 0, some 0⟩ (some 0)).1 = false :=
  ⟨(vp_C4_amended defaultTriggerConfig 20 true false
      ⟨0, some 1, 5, some 1, some 1⟩ 1 (Or.inl (by decide))).1
      (Or.inr (Or.inl (by decide))) (Or.inl rfl),
    (vp_C4_amended defaultTriggerConfig 100 false false
      ⟨1, some 0, 0, some 0, some 0⟩ 0 (Or.inl (by decide))).2.1
      rfl rfl (Or.inr rfl),
    (vp_C4_amended defaultTriggerConfig 12 true false
      ⟨0, some 0, 10, some 0, some 0⟩ 0 (Or.inl (by decide))).2.2
      rfl rfl (by decide) (Or.inr rfl)⟩

lemma vpAux_foldl_minmax (rest : List Pt) (b0 : Bounds)
    (h : b0.minY ≤ b0.maxY) :
    (rest.foldl (fun b q =>
        ⟨min b.minX q.1, min b.minY q.2, max b.maxX q.1, max b.maxY q.2⟩)
      b0).minY
    ≤ (rest.foldl (fun b q =>
        ⟨min b.minX q.1, min b.minY q.2, max b.maxX q.1, max b.maxY q.2⟩)
      b0).maxY := by
  induction rest generalizing b0 with
  | nil => exact h
  | cons q rest ih =>
    exact ih _ (le_trans (le_trans (min_le_left _ _) h) (le_max_left _ _))

lemma vpAux_bbox_minY_le_maxY {keys : List Key} {b : Bounds}
    (h : getKeysBoundingBox keys = some b) : b.minY ≤ b.maxY := by
  unfold getKeysBoundingBox at h
  rcases hj : (keys.map Key.polygon).flatten with _ | ⟨p, rest⟩
  · rw [hj] at h
    simp at h
  · rw [hj] at h
    rw [Option.some_inj] at h
    subst h
    exact vpAux_foldl_minmax rest ⟨p.1, p.2, p.1, p.2⟩ le_rfl

/-- C7: Vertical band filter: for a finger point contained in a key's
polygon, a point above the separator minus the dead-band admits the key as
a candidate exactly when the key is black, a point below the separator plus
the dead-band exactly when it is white, and a point inside the dead-band
admits keys of both types. -/
theorem vp_C7 (keys : List Key) (tx ty : ℚ) (b : Bounds) (pos : ℚ)
    (i : Nat) (k : Key)
    (hb : getKeysBoundingBox keys = some b)
    (hget : keys.get? i = some k)
    (hin : inlineInside tx ty k.polygon = true) :
    (ty < (redBand b pos).1 →
      ((∃ d, (i, d) ∈ collectFingerKeys keys tx ty
          (redBand b pos).1 (redBand b pos).2) ↔ k.type = KeyType.black))
    ∧ (ty > (redBand b pos).2 →
      ((∃ d, (i, d) ∈ collectFingerKeys keys tx ty
          (redBand b pos).1 (redBand b pos).2) ↔ k.type = KeyType.white))
    ∧ ((redBand b pos).1 ≤ ty → ty ≤ (redBand b pos).2 →
      (∃ d, (i, d) ∈ collectFingerKeys keys tx ty
          (redBand b pos).1 (redBand b pos).2)) := by
  have hUL : (redBand b pos).1 ≤ (redBand b pos).2 := by
    have hy := vpAux_bbox_minY_le_maxY hb
    have hbuf : 0 ≤ b.height * RED_LINE_BUFFER := by
      have : (0 : ℚ) ≤ b.height := by
        unfold Bounds.height
        linarith
      have hr : (0 : ℚ) ≤ RED_LINE_BUFFER := by norm_num [RED_LINE_BUFFER]
      exact mul_nonneg this hr
    unfold redBand
    simp only
    linarith
  have hmem : (∃ d, (i, d) ∈ collectFingerKeys keys tx ty
      (redBand b pos).1 (redBand b pos).2)
      ↔ bandPass (redBand b pos).1 (redBand b pos).2 ty k.type = true := by
    constructor
    · rintro ⟨d, hd⟩
      obtain ⟨k', hget', _, h2, _⟩ := vpAux_mem_collect.mp hd
      rw [hget] at hget'
      cases Option.some_inj.mp hget'
      exact h2
    · intro h2
      exact ⟨_, vpAux_mem_collect.mpr ⟨k, hget, hin, h2, rfl⟩⟩
  refine ⟨?_, ?_, ?_⟩
  · intro hty
    have hbelow : ¬((redBand b pos).2 < ty) :=
      not_lt.mpr (le_of_lt (lt_of_lt_of_le hty hUL))
    rw [hmem]
    cases htype : k.type <;> simp [bandPass, hty, hbelow, htype]
  · intro hty
    have habove : ¬(ty < (redBand b pos).1) :=
      not_lt.mpr (le_of_lt (lt_of_le_of_lt hUL hty))
    rw [hmem]
    cases htype : k.type <;> simp [bandPass, hty, habove, htype]
  · intro h1 h2
    rw [hmem]
    simp [bandPass, not_lt.mpr h1, not_lt.mpr h2]

/-- Witness for C7: a single white square key spanning (0,0)-(10,10) with
the default separator position 0.68; the point (5, 8) lies below the lower
dead-band edge 7.05 and the white key is admitted as a candidate. -/
theorem vp_C7_witness :
    getKeysBoundingBox [⟨0, [(0, 0), (10, 0), (10, 10), (0, 10)], KeyType.white⟩]
      = some ⟨0, 0, 10, 10⟩
    ∧ inlineInside 5 8 [(0, 0), (10, 0), (10, 10), (0, 10)] = true
    ∧ ((8 : ℚ) > (redBand ⟨0, 0, 10, 10⟩ (17/25)).2)
    ∧ (∃ d, (0, d) ∈ collectFingerKeys
        [⟨0, [(0, 0), (10, 0), (10, 10), (0, 10)], KeyType.white⟩] 5 8
        (redBand ⟨0, 0, 10, 10⟩ (17/25)).1 (redBand ⟨0, 0, 10, 10⟩ (17/25)).2) := by
  have hb : getKeysBoundingBox
      [⟨0, [(0, 0), (10, 0), (10, 10), (0, 10)], KeyType.white⟩]
      = some ⟨0, 0, 10, 10⟩ := by
    norm_num [getKeysBoundingBox, min_def, max_def]
  have hin : inlineInside 5 8 [(0, 0), (10, 0), (10, 10), (0, 10)] = true := by
    norm_num [inlineInside, edgePairs, inlineCrossStep]
  have hgt : (8 : ℚ) > (redBand ⟨0, 0, 10, 10⟩ (17/25)).2 := by
    norm_num [redBand, Bounds.height, RED_LINE_BUFFER]
  exact ⟨hb, hin, hgt,
    ((vp_C7 [⟨0, [(0, 0), (10, 0), (10, 10), (0, 10)], KeyType.white⟩]
      5 8 ⟨0, 0, 10, 10⟩ (17/25) 0
      ⟨0, [(0, 0), (10, 0), (10, 10), (0, 10)], KeyType.white⟩
      hb rfl hin).2.1 hgt).mpr rfl⟩

lemma vpAux_pushSample_length (window : Nat) (h : List Nat) (s : Nat)
    (hS : 1 ≤ window) (hlen : h.length ≤ window) :
    1 ≤ (pushSample window h s).length ∧
      (pushSample window h s).length ≤ window := by
  unfold pushSample
  by_cases hc : window < (h ++ [s]).length
  · simp only [hc, if_true]
    rw [List.length_tail, List.length_append]
    simp only [List.length_singleton]
    simp at hc
    omega
  · simp only [hc, if_false]
    rw [List.length_append]
    simp only [List.length_singleton]
    simp at hc
    omega

lemma vpAux_keyFrameUpdate_eq (window : Nat) (actT deactT : ℚ) (raw : Bool)
    (h : List Nat) (active : Bool) (hS : 1 ≤ window)
    (hlen : h.length ≤ window) :
    keyFrameUpdate window actT deactT raw h active
      = (pushSample window h (if raw then 1 else 0),
         hysteresisStep actT deactT active
           (detectionRate (pushSample window h (if raw then 1 else 0)))) := by
  have hne : (pushSample window h (if raw then 1 else 0)).isEmpty = false := by
    rw [List.isEmpty_eq_false_iff_exists_mem]
    have h1 := (vpAux_pushSample_length window h (if raw then 1 else 0) hS hlen).1
    rcases hp : pushSample window h (if raw then 1 else 0) with _ | ⟨x, xs⟩
    · rw [hp] at h1
      simp at h1
    · exact ⟨x, List.mem_cons_self x xs⟩
  unfold keyFrameUpdate smoothKey
  simp [hne]

/-- C2: Hysteresis state transitions: an inactive key activates exactly
when the detection rate reaches the activation threshold, an active key
deactivates exactly when the rate falls below the deactivation threshold,
any rate strictly between the thresholds leaves the state unchanged, and at
the default constants a run of all-1 samples from an empty history
activates exactly once while a subsequent run of all-0 samples deactivates
exactly once. -/
theorem vp_C2 (actT deactT r : ℚ) :
    (hysteresisStep actT deactT false r = true ↔ actT ≤ r)
    ∧ (hysteresisStep actT deactT true r = false ↔ r < deactT)
    ∧ (∀ a : Bool, deactT < r → r < actT → hysteresisStep actT deactT a r = a)
    ∧ countRises SMOOTHING_FRAMES ACTIVATION_THRESHOLD DEACTIVATION_THRESHOLD
        [true, true, true, true, true] [] false = 1
    ∧ countFalls SMOOTHING_FRAMES ACTIVATION_THRESHOLD DEACTIVATION_THRESHOLD
        [false, false, false, false, false] [1, 1, 1] true = 1 := by
  refine ⟨?_, ?_, ?_, ?_, ?_⟩
  · by_cases hr : actT ≤ r <;> simp [hysteresisStep, hr]
  · by_cases hr : r < deactT <;> simp [hysteresisStep, hr]
  · intro a h1 h2
    cases a
    · simp [hysteresisStep, not_le.mpr h2]
    · simp [hysteresisStep, not_lt.mpr (le_of_lt h1)]
  · norm_num [countRises, keyFrameUpdate, pushSample, smoothKey, detectionRate,
      hysteresisStep, SMOOTHING_FRAMES, ACTIVATION_THRESHOLD,
      DEACTIVATION_THRESHOLD]
  · norm_num [countFalls, keyFrameUpdate, pushSample, smoothKey, detectionRate,
      hysteresisStep, SMOOTHING_FRAMES, ACTIVATION_THRESHOLD,
      DEACTIVATION_THRESHOLD]

/-- Witness for C2 at the default thresholds: rate 3/4 activates an
inactive key, rate 1/4 deactivates an active key, rate 2/5 (strictly
between 3/10 and 1/2) changes nothing. -/
theorem vp_C2_witness :
    hysteresisStep ACTIVATION_THRESHOLD DEACTIVATION_THRESHOLD false (3/4) = true
    ∧ hysteresisStep ACTIVATION_THRESHOLD DEACTIVATION_THRESHOLD true (1/4) = false
    ∧ hysteresisStep ACTIVATION_THRESHOLD DEACTIVATION_THRESHOLD true (2/5) = true
    ∧ hysteresisStep ACTIVATION_THRESHOLD DEACTIVATION_THRESHOLD false (2/5) = false :=
  ⟨(vp_C2 ACTIVATION_THRESHOLD DEACTIVATION_THRESHOLD (3/4)).1.mpr
      (by norm_num [ACTIVATION_THRESHOLD]),
    (vp_C2 ACTIVATION_THRESHOLD DEACTIVATION_THRESHOLD (1/4)).2.1.mpr
      (by norm_num [DEACTIVATION_THRESHOLD]),
    (vp_C2 ACTIVATION_THRESHOLD DEACTIVATION_THRESHOLD (2/5)).2.2.1 true
      (by norm_num [DEACTIVATION_THRESHOLD]) (by norm_num [ACTIVATION_THRESHOLD]),
    (vp_C2 ACTIVATION_THRESHOLD DEACTIVATION_THRESHOLD (2/5)).2.2.1 false
      (by norm_num [DEACTIVATION_THRESHOLD]) (by norm_num [ACTIVATION_THRESHOLD])⟩

/-- C10: Detection-history invariant: with a window of at least one frame,
pushing this frame's sample keeps every key's history length between 1 and
the window, and because the smoothing stage always runs after the push, its
empty-history branch is unreachable: the full per-key frame update equals
push followed by the plain hysteresis step, for every key of the layout. -/
theorem vp_C10 (window : Nat) (actT deactT : ℚ) (raw : Bool)
    (h : List Nat) (active : Bool) (hS : 1 ≤ window)
    (hlen : h.length ≤ window) :
    (1 ≤ (pushSample window h (if raw then 1 else 0)).length
      ∧ (pushSample window h (if raw then 1 else 0)).length ≤ window)
    ∧ keyFrameUpdate window actT deactT raw h active
        = (pushSample window h (if raw then 1 else 0),
           hysteresisStep actT deactT active
             (detectionRate (pushSample window h (if raw then 1 else 0))))
    ∧ (∀ (rawF : Nat → Bool) (states : List (List Nat × Bool)),
        (∀ p ∈ states, (p.1).length ≤ window) →
        ∀ q ∈ frameSmoothing window actT deactT rawF states,
          1 ≤ q.1.length ∧ q.1.length ≤ window) := by
  refine ⟨vpAux_pushSample_length window h _ hS hlen,
    vpAux_keyFrameUpdate_eq window actT deactT raw h active hS hlen, ?_⟩
  intro rawF states hstates q hq
  unfold frameSmoothing at hq
  rw [List.mem_map] at hq
  obtain ⟨p, hp, hqe⟩ := hq
  have hmem : p.2 ∈ states := List.snd_mem_of_mem_enum hp
  have hplen : (p.2.1).length ≤ window := hstates p.2 hmem
  rw [vpAux_keyFrameUpdate_eq window actT deactT (rawF p.1) p.2.1 p.2.2 hS hplen]
    at hqe
  rw [← hqe]
  exact vpAux_pushSample_length window p.2.1 _ hS hplen

/-- Witness for C10 at the default window: one key with a full 3-frame
history receiving a detected sample. -/
theorem vp_C10_witness :
    1 ≤ SMOOTHING_FRAMES ∧ ([0, 1, 1] : List Nat).length ≤ SMOOTHING_FRAMES ∧
    keyFrameUpdate SMOOTHING_FRAMES ACTIVATION_THRESHOLD DEACTIVATION_THRESHOLD
        true [0, 1, 1] false
      = (pushSample SMOOTHING_FRAMES [0, 1, 1] 1,
         hysteresisStep ACTIVATION_THRESHOLD DEACTIVATION_THRESHOLD false
           (detectionRate (pushSample SMOOTHING_FRAMES [0, 1, 1] 1))) :=
  ⟨by decide, by decide,
    (vp_C10 SMOOTHING_FRAMES ACTIVATION_THRESHOLD DEACTIVATION_THRESHOLD
      true [0, 1, 1] false (by decide) (by decide)).2.1⟩

lemma vpAux_optLe_refl (a : Option ℚ) : optLe a a = true := by
  cases a <;> simp [optLe]

lemma vpAux_optLe_trans (a b c : Option ℚ) (h1 : optLe a b = true)
    (h2 : optLe b c = true) : optLe a c = true := by
  cases a <;> cases b <;> cases c <;> simp [optLe] at * <;> linarith

lemma vpAux_optLe_total (a b : Option ℚ) : (optLe a b || optLe b a) = true := by
  cases a <;> cases b <;> simp [optLe] <;> exact le_total _ _

lemma vpAux_sorted_pairwise (withD : List (Nat × Option ℚ)) :
    List.Pairwise (fun a b => optLe a.2 b.2 = true)
      (withD.mergeSort (fun a b => optLe a.2 b.2)) :=
  List.sorted_mergeSort
    (fun a b c h1 h2 => vpAux_optLe_trans a.2 b.2 c.2 h1 h2)
    (fun a b => vpAux_optLe_total a.2 b.2) withD

/-- C3: Concurrency limiter with thumb priority: when more than two keys
are asserted, the post-limiter list has at most two entries; when the thumb
key is asserted the output is exactly the thumb key plus the other asserted
key nearest (by squared centroid-to-fingertip distance, none standing for
Infinity) to any tracked fingertip; when no thumb key is asserted the
output is exactly the two asserted keys nearest to any fingertip. -/
theorem vp_C3 (keys : List Key) (fingers : List Pt) (tk : Option Nat)
    (raw : List Nat) (hraw : 2 < raw.length) (hnd : raw.Nodup) :
    ((limitKeys keys fingers tk raw).length ≤ 2)
    ∧ (∀ t, tk = some t → t ∈ raw →
        ∃ j, limitKeys keys fingers tk raw = [t, j] ∧ j ∈ raw ∧ j ≠ t ∧
          ∀ i ∈ raw, i ≠ t →
            optLe (keyMinSqDist keys fingers j) (keyMinSqDist keys fingers i)
              = true)
    ∧ ((∀ t, tk = some t → t ∉ raw) →
        ∃ j1 j2, limitKeys keys fingers tk raw = [j1, j2] ∧ j1 ∈ raw ∧
          j2 ∈ raw ∧ j1 ≠ j2 ∧
          ∀ i ∈ raw, i ≠ j1 → i ≠ j2 →
            optLe (keyMinSqDist keys fingers j1) (keyMinSqDist keys fingers i)
              = true ∧
            optLe (keyMinSqDist keys fingers j2) (keyMinSqDist keys fingers i)
              = true) := by
  have hne : ¬(raw.length ≤ 2) := Nat.not_le.mpr hraw
  refine ⟨?_, ?_, ?_⟩
  · rcases tk with _ | t
    · have hl : limitKeys keys fingers none raw
          = ((((raw.filter (fun i => decide ((none : Option Nat) ≠ some i))).map
              (fun i => (i, keyMinSqDist keys fingers i))).mergeSort
              (fun a b => optLe a.2 b.2)).take 2).map Prod.fst := by
        simp only [limitKeys, hne, if_false]
      rw [hl, List.length_map, List.length_take]
      omega
    · by_cases hm : t ∈ raw
      · have hl : limitKeys keys fingers (some t) raw
            = t :: (((((raw.filter
                (fun i => decide ((some t : Option Nat) ≠ some i))).map
                (fun i => (i, keyMinSqDist keys fingers i))).mergeSort
                (fun a b => optLe a.2 b.2)).take 1).map Prod.fst) := by
          simp only [limitKeys, hne, if_false, hm, if_true]
        rw [hl]
        simp only [List.length_cons, List.length_map, List.length_take]
        omega
      · have hl : limitKeys keys fingers (some t) raw
            = ((((raw.filter
                (fun i => decide ((some t : Option Nat) ≠ some i))).map
                (fun i => (i, keyMinSqDist keys fingers i))).mergeSort
                (fun a b => optLe a.2 b.2)).take 2).map Prod.fst := by
          simp only [limitKeys, hne, if_false, hm, if_false]
        rw [hl, List.length_map, List.length_take]
        omega
  · intro t htk hmem
    subst htk
    set D := keyMinSqDist keys fingers with hD
    set otherKeys := raw.filter (fun i => decide ((some t : Option Nat) ≠ some i))
      with hok
    set withD := otherKeys.map (fun i => (i, D i)) with hwd
    set sorted := withD.mergeSort (fun a b => optLe a.2 b.2) with hsorted
    have hlimit : limitKeys keys fingers (some t) raw
        = t :: (sorted.take 1).map Prod.fst := by
      simp only [limitKeys, hne, if_false, hmem, if_true, ← hok, ← hwd, ← hsorted]
    have hokne : otherKeys ≠ [] := by
      intro hnil
      have hall : ∀ i ∈ raw, i = t := by
        intro i hi
        by_contra hit
        have : i ∈ otherKeys := by
          rw [hok, List.mem_filter]
          exact ⟨hi, by simp [Ne.symm hit]⟩
        rw [hnil] at this
        exact List.not_mem_nil i this
      rcases raw with _ | ⟨a, _ | ⟨b, rest⟩⟩
      · simp at hraw
      · simp at hraw
      · have ha := hall a (List.mem_cons_self _ _)
        have hb := hall b (List.mem_cons_of_mem _ (List.mem_cons_self _ _))
        have hab : a ≠ b := by
          have := (List.nodup_cons.mp hnd).1
          intro hab
          exact this (hab ▸ List.mem_cons_self _ _)
        exact hab (ha.trans hb.symm)
    have hsne : sorted ≠ [] := by
      intro hnil
      have : withD = [] := by
        have hp := List.mergeSort_perm withD (fun a b => optLe a.2 b.2)
        rw [hsorted] at hnil
        exact (List.Perm.nil_eq (hnil ▸ hp)).symm
      exact hokne (List.map_eq_nil_iff.mp this)
    rcases hs : sorted with _ | ⟨s0, stail⟩
    · exact absurd hs hsne
    have hs0 : s0 ∈ withD := by
      have hms : s0 ∈ sorted := by
        rw [hs]
        exact List.mem_cons_self _ _
      rw [hsorted] at hms
      exact List.mem_mergeSort.mp hms
    have hs0m := hs0
    rw [hwd, List.mem_map] at hs0m
    obtain ⟨i0, hi0, he0⟩ := hs0m
    rw [hok, List.mem_filter] at hi0
    have hfst : s0.1 = i0 := by rw [← he0]
    have hs02 : s0.2 = D s0.1 := by rw [← he0]
    refine ⟨s0.1, ?_, ?_, ?_, ?_⟩
    · rw [hlimit, hs]
      simp
    · rw [hfst]
      exact hi0.1
    · have := hi0.2
      simp at this
      rw [hfst]
      exact fun h => this h.symm
    · intro i hi hit
      have hiw : (i, D i) ∈ withD := by
        rw [hwd, List.mem_map]
        exact ⟨i, by rw [hok, List.mem_filter]; exact ⟨hi, by simp [Ne.symm hit]⟩,
          rfl⟩
      have his : (i, D i) ∈ sorted := by
        rw [hsorted, List.mem_mergeSort]
        exact hiw
      rw [hs] at his
      rcases List.mem_cons.mp his with he | htail
      · rw [← he]
        exact vpAux_optLe_refl (D i)
      · have hpw := vpAux_sorted_pairwise withD
        rw [← hsorted, hs] at hpw
        have := (List.pairwise_cons.mp hpw).1 _ htail
        rw [← hs02]
        exact this
  · intro hno
    set D := keyMinSqDist keys fingers with hD
    have hfe : raw.filter (fun i => decide (tk ≠ some i)) = raw := by
      rw [List.filter_eq_self]
      intro a ha
      rcases tk with _ | t
      · simp
      · simp
        exact fun h => (hno t rfl) (h ▸ ha)
    set withD := raw.map (fun i => (i, D i)) with hwd
    set sorted := withD.mergeSort (fun a b => optLe a.2 b.2) with hsorted
    have hlimit : limitKeys keys fingers tk raw
        = (sorted.take 2).map Prod.fst := by
      rcases tk with _ | t
      · simp only [limitKeys, hne, if_false, hfe, ← hwd, ← hsorted]
      · have hm : t ∉ raw := hno t rfl
        simp only [limitKeys, hne, if_false, hfe, hm, if_false, ← hwd, ← hsorted]
    have hlen : 2 < sorted.length := by
      rw [hsorted, (List.mergeSort_perm withD _).length_eq, hwd, List.length_map]
      exact hraw
    have hndw : withD.Nodup := by
      rw [hwd]
      exact hnd.map (fun a b hab => congrArg Prod.fst hab)
    have hnds : sorted.Nodup := by
      rw [hsorted]
      exact ((List.mergeSort_perm withD _).nodup_iff).mpr hndw
    have hmemw : ∀ x ∈ withD, x.2 = D x.1 ∧ x.1 ∈ raw := by
      intro x hx
      rw [hwd, List.mem_map] at hx
      obtain ⟨i, hi, he⟩ := hx
      constructor
      · rw [← he]
      · have : x.1 = i := by rw [← he]
        rw [this]
        exact hi
    rcases hs : sorted with _ | ⟨s0, rest0⟩
    · rw [hs] at hlen
      simp at hlen
    rcases hr : rest0 with _ | ⟨s1, stail⟩
    · rw [hs, hr] at hlen
      simp at hlen
    rw [hr] at hs
    have hs0w : s0 ∈ withD := by
      have hms : s0 ∈ sorted := by
        rw [hs]
        exact List.mem_cons_self _ _
      rw [hsorted] at hms
      exact List.mem_mergeSort.mp hms
    have hs1w : s1 ∈ withD := by
      have hms : s1 ∈ sorted := by
        rw [hs]
        exact List.mem_cons_of_mem _ (List.mem_cons_self _ _)
      rw [hsorted] at hms
      exact List.mem_mergeSort.mp hms
    obtain ⟨hs02, hs01⟩ := hmemw s0 hs0w
    obtain ⟨hs12, hs11⟩ := hmemw s1 hs1w
    have hne01 : s0.1 ≠ s1.1 := by
      intro he
      have hs0e : s0 = s1 := by
        have h0 : s0 = (s0.1, s0.2) := rfl
        have h1 : s1 = (s1.1, s1.2) := rfl
        rw [h0, h1, hs02, hs12, he]
      rw [hs] at hnds
      exact (List.nodup_cons.mp hnds).1 (hs0e ▸ List.mem_cons_self _ _)
    refine ⟨s0.1, s1.1, ?_, hs01, hs11, hne01, ?_⟩
    · rw [hlimit, hs]
      simp
    · intro i hi hi0 hi1
      have hiw : (i, D i) ∈ withD := by
        rw [hwd, List.mem_map]
        exact ⟨i, hi, rfl⟩
      have his : (i, D i) ∈ sorted := by
        rw [hsorted, List.mem_mergeSort]
        exact hiw
      rw [hs] at his
      have hne0 : (i, D i) ≠ s0 := fun he => hi0 (by rw [← he])
      have hne1 : (i, D i) ≠ s1 := fun he => hi1 (by rw [← he])
      have htail : (i, D i) ∈ stail := by
        rcases List.mem_cons.mp his with h | h
        · exact absurd h hne0
        · rcases List.mem_cons.mp h with h' | h'
          · exact absurd h' hne1
          · exact h'
      have hpw := vpAux_sorted_pairwise withD
      rw [← hsorted, hs] at hpw
      obtain ⟨hp0, hpw'⟩ := List.pairwise_cons.mp hpw
      obtain ⟨hp1, _⟩ := List.pairwise_cons.mp hpw'
      constructor
      · rw [← hs02]
        exact hp0 _ (List.mem_cons_of_mem _ htail)
      · rw [← hs12]
        exact hp1 _ htail

/-- Witness for C3: three asserted keys 0,1,2 with the thumb on key 0; the
limiter keeps the thumb key plus the nearest other asserted key. -/
theorem vp_C3_witness :
    ∃ j, limitKeys
        [⟨0, [(0, 0), (10, 0), (10, 10), (0, 10)], KeyType.white⟩,
         ⟨1, [(10, 0), (20, 0), (20, 10), (10, 10)], KeyType.white⟩,
         ⟨2, [(20, 0), (30, 0), (30, 10), (20, 10)], KeyType.white⟩]
        [(0, 0)] (some 0) [0, 1, 2] = [0, j] ∧ j ∈ [0, 1, 2] ∧ j ≠ 0 ∧
      ∀ i ∈ [0, 1, 2], i ≠ 0 →
        optLe
          (keyMinSqDist
            [⟨0, [(0, 0), (10, 0), (10, 10), (0, 10)], KeyType.white⟩,
             ⟨1, [(10, 0), (20, 0), (20, 10), (10, 10)], KeyType.white⟩,
             ⟨2, [(20, 0), (30, 0), (30, 10), (20, 10)], KeyType.white⟩]
            [(0, 0)] j)
          (keyMinSqDist
            [⟨0, [(0, 0), (10, 0), (10, 10), (0, 10)], KeyType.white⟩,
             ⟨1, [(10, 0), (20, 0), (20, 10), (10, 10)], KeyType.white⟩,
             ⟨2, [(20, 0), (30, 0), (30, 10), (20, 10)], KeyType.white⟩]
            [(0, 0)] i) = true :=
  (vp_C3
    [⟨0, [(0, 0), (10, 0), (10, 10), (0, 10)], KeyType.white⟩,
     ⟨1, [(10, 0), (20, 0), (20, 10), (10, 10)], KeyType.white⟩,
     ⟨2, [(20, 0), (30, 0), (30, 10), (20, 10)], KeyType.white⟩]
    [(0, 0)] (some 0) [0, 1, 2] (by decide) (by decide)).2.1 0 rfl (by decide)

lemma vpAux_mem_dedupFirst (n : Nat) (l : List Nat) :
    n ∈ dedupFirst l ↔ n ∈ l := by
  induction l with
  | nil => simp [dedupFirst]
  | cons m rest ih =>
    simp only [dedupFirst, List.mem_cons, List.mem_filter]
    constructor
    · rintro (h | ⟨h1, _⟩)
      · exact Or.inl h
      · exact Or.inr (ih.mp h1)
    · rintro (h | h)
      · exact Or.inl h
      · by_cases hnm : n = m
        · exact Or.inl hnm
        · exact Or.inr ⟨ih.mpr h, by simp [hnm]⟩

/-- C6 counterexample: on a frame with no detected hands where the drained
active set shrinks to key 0 (note 1) while notes 1 and 2 are sounding, the
engine emits no note-off at all, although note 2 has no remaining active
key, against the claim that such note-offs are emitted also on no-hands
frames. -/
theorem vp_C6_cex :
    (emitNoHands [0] [1, 2]).offs = []
    ∧ (2 ∈ ([1, 2] : List Nat))
    ∧ (∀ i ∈ ([0] : List Nat),
        keyNote [⟨1, [(0, 0)], KeyType.white⟩] i ≠ 2) := by
  refine ⟨rfl, by decide, ?_⟩
  intro i hi
  have h0 : i = 0 := by simpa using hi
  subst h0
  decide

/-- C6 (amended): on frames with detected hands the emitter behaves as the
claim states: a note-on is emitted exactly for the note identifiers held by
some stable active key and not already sounding (so duplicate identifiers
are suppressed), and a note-off exactly for the sounding identifiers shared
by no remaining active key.  On frames with no detected hands, however,
note-offs are only emitted when the drained active set is completely empty
(then every sounding note is stopped); a partial deactivation emits
nothing and leaves the sounding set untouched. -/
theorem vp_C6_amended (keys : List Key) (active currentNotes : List Nat) :
    (∀ n, n ∈ (emitWithHands keys active currentNotes).ons ↔
      ((∃ i ∈ active, keyNote keys i = n) ∧ n ∉ currentNotes))
    ∧ (∀ n, n ∈ (emitWithHands keys active currentNotes).offs ↔
      (n ∈ currentNotes ∧ ∀ i ∈ active, keyNote keys i ≠ n))
    ∧ (active = [] →
        emitNoHands active currentNotes = ⟨[], currentNotes, []⟩)
    ∧ (active ≠ [] →
        emitNoHands active currentNotes = ⟨[], [], currentNotes⟩) := by
  refine ⟨?_, ?_, ?_, ?_⟩
  · intro n
    simp only [emitWithHands, List.mem_filter, vpAux_mem_dedupFirst,
      List.mem_map, List.mem_mergeSort, decide_eq_true_eq]
  · intro n
    simp only [emitWithHands, List.mem_filter, vpAux_mem_dedupFirst,
      List.mem_map, List.mem_mergeSort, decide_eq_true_eq]
    constructor
    · rintro ⟨hc, hno⟩
      refine ⟨hc, ?_⟩
      intro i hi he
      exact hno ⟨i, hi, he⟩
    · rintro ⟨hc, hno⟩
      refine ⟨hc, ?_⟩
      rintro ⟨i, hi, he⟩
      exact hno i hi he
  · intro h
    subst h
    rfl
  · intro h
    have hf : active.isEmpty = false := by
      rcases active with _ | ⟨a, rest⟩
      · exact absurd rfl h
      · rfl
    simp [emitNoHands, hf]

/-- Witness for C6 (amended): one active key with note 7 and nothing
sounding emits a note-on for 7; a sounding note 9 with no active key
emits a note-off for 9. -/
theorem vp_C6_witness :
    (7 ∈ (emitWithHands [⟨7, [(0, 0)], KeyType.white⟩] [0] []).ons)
    ∧ (9 ∈ (emitWithHands [⟨7, [(0, 0)], KeyType.white⟩] [0] [9]).offs)
    ∧ emitNoHands ([] : List Nat) [7] = ⟨[], [7], []⟩
    ∧ emitNoHands [0] [7] = ⟨[], [], [7]⟩ :=
  ⟨((vp_C6_amended [⟨7, [(0, 0)], KeyType.white⟩] [0] []).1 7).mpr
      ⟨⟨0, by decide, rfl⟩, by decide⟩,
    ((vp_C6_amended [⟨7, [(0, 0)], KeyType.white⟩] [0] [9]).2.1 9).mpr
      ⟨by decide, by
        intro i hi
        have h0 : i = 0 := by simpa using hi
        subst h0
        decide⟩,
    (vp_C6_amended [⟨7, [(0, 0)], KeyType.white⟩] [] [7]).2.2.1 rfl,
    (vp_C6_amended [⟨7, [(0, 0)], KeyType.white⟩] [0] [7]).2.2.2
      (by decide)⟩

end VirtualPiano
